import Mathlib

/-!
A verification development of `log_tools/src/main.rs`.

The program is an Android diagnostic tool: it repeatedly invokes an
external `adb` command, parses its semi-structured textual output
(`dumpsys meminfo`, `ps -T`) into typed records, and accumulates a
time series of memory samples.

This file gives a shallow embedding of the pure parsing and looping
logic of that program:

* a report is modelled as the list of its lines (the output of Rust's
  `str::lines`, so a line never contains `'\n'`), each line a
  `List Char`;
* the two precompiled regular expressions `MEM_REGEX` and `SO_REGEX`
  are embedded as deterministic capture functions that follow the
  leftmost-first, greedy semantics of the `regex` crate on the
  patterns `(.+):\s+(\d+)` and `^\s*(\d+)\s+(\d+)\s+(\d+)\s+(.+\.so)`;
  the character classes `\s` and `\d` are modelled by their ASCII
  parts, which is what device output contains;
* machine integers (`u64`) are `Nat` with an explicit `2 ^ 64` bound
  where `str::parse::<u64>` can overflow;
* fallible Rust functions returning `anyhow::Result` become `Except`;
* the wall-clock of the sampling loop is idealized exactly as the
  design document does: a capture is instantaneous and the elapsed
  time grows by `sample_interval` at each `thread::sleep`, so the
  ticks fall at 0, i, 2i, ...;
* `Vec::sort_unstable_by` is embedded by its documented contract: the
  result is a permutation of the input that is sorted by the
  comparator, with no guarantee on the order of equal elements.
-/

namespace LogTools

/-- ASCII part of the regex class `\s` (Rust `regex` uses Unicode
white space; device reports only contain the ASCII part). `char::is_whitespace`
and `str::trim` agree with this on ASCII text. -/
def isWs (c : Char) : Bool :=
  c = ' ' || c = '\t' || c = '\n' || c = '\r' || c = Char.ofNat 11 || c = Char.ofNat 12

/-- Length of the maximal whitespace run at the head of `cs` (what a
greedy `\s*` or `\s+` consumes). -/
def wsRunLen : List Char → Nat
  | [] => 0
  | c :: rest => if isWs c then wsRunLen rest + 1 else 0

/-- The maximal digit run at the head of `cs` (what a greedy `(\d+)`
captures once positioned). -/
def digRun : List Char → List Char
  | [] => []
  | c :: rest => if c.isDigit then c :: digRun rest else []

/-- `str::trim`: drop whitespace from both ends. -/
def trimChars (cs : List Char) : List Char :=
  ((cs.dropWhile isWs).reverse.dropWhile isWs).reverse

/-- Numeric value of a digit string. -/
def digitsVal (ds : List Char) : Nat :=
  ds.foldl (fun acc c => acc * 10 + (c.toNat - 48)) 0

/-- One more than `u64::MAX`. -/
def u64Bound : Nat := 2 ^ 64

/-- `str::parse::<u64>` on a captured group: succeeds on a nonempty
all-digit string whose value fits an unsigned 64-bit integer. -/
def parseU64 (ds : List Char) : Option Nat :=
  if !ds.isEmpty && ds.all Char.isDigit && decide (digitsVal ds < u64Bound)
  then some (digitsVal ds) else none

/-- Whether the text `cs` that follows a candidate colon satisfies the
`\s+(\d+)` part of `MEM_REGEX`: at least one whitespace character and
then a digit.  (Greedy `\s+` consumes the whole whitespace run; no
backtracking can help, since a shorter run would leave a whitespace
character where a digit is required.) -/
def colonWorks (cs : List Char) : Bool :=
  match cs.drop (wsRunLen cs) with
  | c :: _ => decide (0 < wsRunLen cs) && c.isDigit
  | [] => false

/-- Whether position `j` of `line` can be the colon of a `MEM_REGEX`
match that starts at the beginning of the line: `(.+)` needs at least
one character before the colon. -/
def workingColon (line : List Char) (j : Nat) : Bool :=
  decide (1 ≤ j) && decide (line.get? j = some ':') && colonWorks (line.drop (j + 1))

/-- The colon the greedy `(.+)` stops at: the last working colon of the
line.  `foldl` keeps the last index that passes the test. -/
def lastWorkingColon (line : List Char) : Option Nat :=
  (List.range line.length).foldl
    (fun acc j => if workingColon line j then some j else acc) none

/-- Capture groups of `MEM_REGEX`, the pattern `(.+):\s+(\d+)`, on one
line: `(label text before the colon, digit group)`.  The `regex` crate
finds the leftmost match — which starts at position 0 whenever any
match exists, because `(.+)` can absorb every character before a
working colon — and greediness makes `(.+)` run to the last working
colon and `(\d+)` capture the maximal digit run after the whitespace. -/
def memCaptures (line : List Char) : Option (List Char × List Char) :=
  match lastWorkingColon line with
  | none => none
  | some j =>
    let rest := line.drop (j + 1)
    some (line.take j, digRun (rest.drop (wsRunLen rest)))

/-- Whether `line` matches `MEM_REGEX` with a first capture group that
trims to `key` — the condition `parse_memory_value` selects lines by. -/
def lineMatchesKey (line key : List Char) : Bool :=
  match memCaptures line with
  | some (g1, _) => decide (trimChars g1 = key)
  | none => false

/-- Errors of the embedded fallible functions: a gateway (adb) failure,
or `anyhow!("Failed to parse {} value", key)` from `parse_memory_value`. -/
inductive ToolErr where
  | gateway : ToolErr
  | parseValue : List Char → ToolErr
deriving DecidableEq, Repr

/-- `parse_memory_value(mem_info, key)`: scan the lines in order; on the
first line whose `MEM_REGEX` label trims to `key`, parse the digit
group as `u64` (an overflow is the error case); if no line matches,
warn and return `Ok(0)`. -/
def parseMemoryValue (memInfo : List (List Char)) (key : List Char) : Except ToolErr Nat :=
  match memInfo with
  | [] => Except.ok 0
  | line :: rest =>
    match memCaptures line with
    | some (g1, g2) =>
      if trimChars g1 = key then
        match parseU64 g2 with
        | some v => Except.ok v
        | none => Except.error (ToolErr.parseValue key)
      else parseMemoryValue rest key
    | none => parseMemoryValue rest key

/-- The digit group of the first line whose `MEM_REGEX` label trims to
`key` — the line `parse_memory_value`'s scan stops at. -/
def firstMatchDigits (memInfo : List (List Char)) (key : List Char) : Option (List Char) :=
  match memInfo with
  | [] => none
  | line :: rest =>
    match memCaptures line with
    | some (g1, g2) =>
      if trimChars g1 = key then some g2 else firstMatchDigits rest key
    | none => firstMatchDigits rest key

/-- `str::contains`: `needle` occurs as a contiguous substring of `hay`. -/
def containsSub : List Char → List Char → Bool
  | [], needle => needle.isEmpty
  | c :: rest, needle => needle.isPrefixOf (c :: rest) || containsSub rest needle

/-- The literal section marker `"Native Heap"` that opens the `.so` table. -/
def nativeHeapMarker : List Char := "Native Heap".toList

/-- The literal marker `"Dalvik Heap"` of the next section, a terminator. -/
def dalvikHeapMarker : List Char := "Dalvik Heap".toList

/-- Whether `cs` begins with the literal `".so"` of the regex tail `\.so`. -/
def startsWithSo : List Char → Bool
  | '.' :: 's' :: 'o' :: _ => true
  | _ => false

/-- Start index of the last `".so"` occurrence in `cs` — where the
greedy `.+` of `(.+\.so)` stops.  `foldl` keeps the last index that
passes the test. -/
def lastSoStart (cs : List Char) : Option Nat :=
  (List.range cs.length).foldl
    (fun acc q => if startsWithSo (cs.drop q) then some q else acc) none

/-- The `\s+(.+\.so)` tail of `SO_REGEX` on the text `r` that follows
the third digit group: greedy `\s+` consumes the whole whitespace run
of length `k`; `(.+\.so)` then needs a `".so"` that starts strictly
after the run (one character for `.+`).  If the last (and hence only
candidate) `".so"` starts exactly at the end of the run, the engine
backtracks one whitespace character into `.+` — possible only when the
run has length at least 2. `".so"` cannot start inside the run because
`'.'` is not whitespace, so only the last occurrence matters. -/
def soTail (r : List Char) : Option (List Char) :=
  let k := wsRunLen r
  if k = 0 then none
  else
    match lastSoStart r with
    | none => none
    | some q =>
      if k + 1 ≤ q then some ((r.drop k).take (q + 3 - k))
      else if 2 ≤ k && k ≤ q then some ((r.drop (k - 1)).take (q + 3 - (k - 1)))
      else none

/-- Capture groups of `SO_REGEX`, the anchored pattern
`^\s*(\d+)\s+(\d+)\s+(\d+)\s+(.+\.so)`, on one line:
`(pss digits, private_dirty digits, shared_dirty digits, library name)`.
Each greedy `(\d+)` takes the maximal digit run and each `\s+` the
maximal whitespace run; no backtracking across those boundaries can
succeed, because a shortened run ends on a character of its own class. -/
def soCaptures (line : List Char) : Option (List Char × List Char × List Char × List Char) :=
  let r0 := line.drop (wsRunLen line)
  let d1 := digRun r0
  if d1.isEmpty then none else
  let r1 := r0.drop d1.length
  let k1 := wsRunLen r1
  if k1 = 0 then none else
  let d2 := digRun (r1.drop k1)
  if d2.isEmpty then none else
  let r2 := (r1.drop k1).drop d2.length
  let k2 := wsRunLen r2
  if k2 = 0 then none else
  let d3 := digRun (r2.drop k2)
  if d3.isEmpty then none else
  let r3 := (r2.drop k2).drop d3.length
  match soTail r3 with
  | none => none
  | some nm => some (d1, d2, d3, nm)

/-- One row of the `.so` table (struct `SoMemoryInfo`). -/
structure SoMemoryInfo where
  name : List Char
  pss : Nat
  private_dirty : Nat
  shared_dirty : Nat
deriving DecidableEq, Repr

/-- `caps.get(i).and_then(parse::<u64>).unwrap_or(0)`: an overflowing
digit group becomes 0 in `analyze_so_memory` (unlike `parse_memory_value`,
which fails). -/
def parseU64OrZero (ds : List Char) : Nat :=
  match parseU64 ds with
  | some v => v
  | none => 0

/-- The console warnings `analyze_so_memory` can print. -/
inductive SoWarn where
  | parseFail : List Char → SoWarn
  | lineLimit : SoWarn
  | noLibs : SoWarn
deriving DecidableEq, Repr

/-- The scan loop of `analyze_so_memory`, with the enumerated line
index `i` and the `in_so_section` flag as explicit state.  In source
order per line: a line containing `"Native Heap"` sets the flag and
`continue`s; inside the section a line containing `"Dalvik Heap"` or
blank after trimming `break`s; `i > 1000` warns and `break`s — this
safety check is not guarded by the flag; finally a nonblank in-section
line is parsed against `SO_REGEX`, a failure producing a warning only. -/
def collectSoAux : List (List Char) → Nat → Bool → List SoMemoryInfo × List SoWarn
  | [], _, _ => ([], [])
  | line :: rest, i, inSec =>
    if containsSub line nativeHeapMarker then collectSoAux rest (i + 1) true
    else if inSec && (containsSub line dalvikHeapMarker || (trimChars line).isEmpty) then ([], [])
    else if 1000 < i then ([], [SoWarn.lineLimit])
    else if inSec && !(trimChars line).isEmpty then
      match soCaptures line with
      | some (d1, d2, d3, nm) =>
        let r := collectSoAux rest (i + 1) inSec
        ({ name := nm, pss := parseU64OrZero d1, private_dirty := parseU64OrZero d2,
           shared_dirty := parseU64OrZero d3 } :: r.1, r.2)
      | none =>
        let r := collectSoAux rest (i + 1) inSec
        (r.1, SoWarn.parseFail line :: r.2)
    else collectSoAux rest (i + 1) inSec

/-- The collection-and-warning phase of `analyze_so_memory` on a report
given as its list of lines: the rows in order of appearance, and the
warnings including the final `"No .so libraries found"` one emitted
when the collection is empty.  (When the collection is nonempty the
code instead sorts it in place; the sort is specified separately by
`soSorted`, since `sort_unstable_by` fixes no order on ties.) -/
def analyzeSoParse (lines : List (List Char)) : List SoMemoryInfo × List SoWarn :=
  let r := collectSoAux lines 0 false
  (r.1, r.2 ++ (if r.1.isEmpty then [SoWarn.noLibs] else []))

/-- Adjacent-pair check that a row list is in descending `pss` order. -/
def soSorted : List SoMemoryInfo → Bool
  | [] => true
  | [_] => true
  | a :: b :: rest => decide (b.pss ≤ a.pss) && soSorted (b :: rest)

/-- `so_libs.sort_unstable_by(|a, b| b.pss.cmp(&a.pss))` embedded by its
contract: `out` is a possible final row list for the report `lines` iff
it is a permutation of the collected rows that is sorted descending by
`pss`.  The contract of an unstable sort promises nothing about the
relative order of rows with equal `pss`.  (On an empty collection the
code skips the sort, and the only permutation is `[]` anyway.) -/
def analyzeSoMemorySpec (lines : List (List Char)) (out : List SoMemoryInfo) : Prop :=
  out.Perm (analyzeSoParse lines).1 ∧ soSorted out = true

/-- The stability property §4.3 claims for ties: for every `pss` value,
the rows carrying it appear in `out` in their order of appearance in
the report. -/
def stableForTies (collected out : List SoMemoryInfo) : Prop :=
  ∀ p : Nat, out.filter (fun r => decide (r.pss = p)) =
    collected.filter (fun r => decide (r.pss = p))

/-- `str::split_whitespace` with an accumulator for the current word. -/
def splitWsAux : List Char → List Char → List (List Char)
  | [], cur => if cur.isEmpty then [] else [cur.reverse]
  | c :: rest, cur =>
    if isWs c then
      (if cur.isEmpty then splitWsAux rest [] else cur.reverse :: splitWsAux rest [])
    else splitWsAux rest (c :: cur)

/-- `str::split_whitespace`: maximal nonempty runs of non-whitespace. -/
def splitWs (cs : List Char) : List (List Char) := splitWsAux cs []

/-- `fields[8..].join(" ")`. -/
def joinSpace : List (List Char) → List Char
  | [] => []
  | [w] => w
  | w :: rest => w ++ ' ' :: joinSpace rest

/-- One row of the thread listing (struct `ThreadInfo`). -/
structure ThreadInfo where
  tid : List Char
  name : List Char
  state : List Char
  priority : List Char
  user_time : List Char
  system_time : List Char
deriving DecidableEq, Repr

/-- One data row of `ps -T` output in `analyze_threads`: split on
whitespace; with at least 9 fields, `tid` is field 1, the name joins
fields 8 onward, and `state`, `priority`, `user_time`, `system_time`
are fields 4–7; fewer than 9 fields yields nothing. -/
def threadRow (line : List Char) : Option ThreadInfo :=
  match splitWs line with
  | _f0 :: f1 :: _f2 :: _f3 :: f4 :: f5 :: f6 :: f7 :: f8 :: rest =>
    some { tid := f1, name := joinSpace (f8 :: rest), state := f4, priority := f5,
           user_time := f6, system_time := f7 }
  | _ => none

/-- The parsing phase of `analyze_threads` on the `ps -T` listing given
as its list of lines: `lines().skip(1)` drops the header row, and each
remaining row yields at most one record, in order. -/
def parseThreads (lines : List (List Char)) : List ThreadInfo :=
  (lines.drop 1).filterMap threadRow

/-- A memory sample (struct `MemorySample`), all fields in KB, the
timestamp in seconds since the start of the run. -/
structure MemorySample where
  timestamp : Nat
  total_pss : Nat
  native_heap : Nat
  dalvik_heap : Nat
  code : Nat
  stack : Nat
  graphics : Nat
  private_dirty : Nat
  shared_dirty : Nat
deriving DecidableEq, Repr

/-- The eight tracked keys, exactly as `monitor_memory` passes them
(each includes its colon). -/
def keyTotalPss : List Char := "TOTAL PSS:".toList

/-- Key of the `native_heap` field. -/
def keyNativeHeap : List Char := "Native Heap:".toList

/-- Key of the `dalvik_heap` field. -/
def keyDalvikHeap : List Char := "Dalvik Heap:".toList

/-- Key of the `code` field. -/
def keyCode : List Char := "Code:".toList

/-- Key of the `stack` field. -/
def keyStack : List Char := "Stack:".toList

/-- Key of the `graphics` field. -/
def keyGraphics : List Char := "Graphics:".toList

/-- Key of the `private_dirty` field. -/
def keyPrivateDirty : List Char := "Private Dirty:".toList

/-- Key of the `shared_dirty` field. -/
def keySharedDirty : List Char := "Shared Dirty:".toList

/-- Build one `MemorySample` from a captured report, as the struct
literal in `monitor_memory` does: the eight `parse_memory_value` calls
run in field order and the first `Err` aborts via `?`. -/
def buildSample (report : List (List Char)) (ts : Nat) : Except ToolErr MemorySample := do
  let tp ← parseMemoryValue report keyTotalPss
  let nh ← parseMemoryValue report keyNativeHeap
  let dh ← parseMemoryValue report keyDalvikHeap
  let cd ← parseMemoryValue report keyCode
  let st ← parseMemoryValue report keyStack
  let gr ← parseMemoryValue report keyGraphics
  let pd ← parseMemoryValue report keyPrivateDirty
  let sd ← parseMemoryValue report keySharedDirty
  return { timestamp := ts, total_pss := tp, native_heap := nh, dalvik_heap := dh,
           code := cd, stack := st, graphics := gr, private_dirty := pd, shared_dirty := sd }

/-- The `while` loop of `monitor_memory` under the idealized clock (a
capture is instantaneous; `elapsed` advances by `interval` at each
sleep, so the guard is checked before every tick at 0, i, 2i, ...).
`gw k` is the result of the k-th `get_memory_info_into` gateway call,
as a report or a gateway error; a gateway error or a sample-field
parse error is propagated by `?`, aborting the run.  `fuel` only
bounds the recursion: with `interval ≥ 1` the guard fails after at
most `duration` iterations, and an exhausted fuel returns the same
accumulated samples the guard would. -/
def monitorGo (gw : Nat → Except ToolErr (List (List Char))) (duration interval : Nat) :
    Nat → Nat → Nat → List MemorySample → Except ToolErr (List MemorySample)
  | 0, _, _, acc => Except.ok acc.reverse
  | fuel + 1, elapsed, k, acc =>
    if elapsed < duration then
      match gw k with
      | Except.error e => Except.error e
      | Except.ok report =>
        match buildSample report elapsed with
        | Except.error e => Except.error e
        | Except.ok s => monitorGo gw duration interval fuel (elapsed + interval) (k + 1) (s :: acc)
    else Except.ok acc.reverse

/-- `monitor_memory(duration)` restricted to its sampling loop: the
ordered samples of a run, or the first propagated error.  (The plotting
and file writing that follow the loop are outside the embedded core.) -/
def monitorMemory (gw : Nat → Except ToolErr (List (List Char)))
    (duration interval : Nat) : Except ToolErr (List MemorySample) :=
  monitorGo gw duration interval (duration + 1) 0 0 []

/-! ### The spec's variant of the extractor pattern

§4.2 of the design document states the pattern as `<label>:\s*<digits>`,
with zero or more whitespace characters after the colon.  The code's
`MEM_REGEX` is `(.+):\s+(\d+)` — at least one.  The next three
definitions follow the spec's words, to be compared with `memCaptures`
above; a line such as `Key:123` separates the two. -/

/-- Modelled from the spec: the `:\s*<digits>` part of §4.2's pattern —
the candidate colon may be followed by zero whitespace characters
before the digit. -/
def specColonWorks (cs : List Char) : Bool :=
  match cs.drop (wsRunLen cs) with
  | c :: _ => c.isDigit
  | [] => false

/-- Modelled from the spec: position `j` can be the colon of a match of
§4.2's pattern starting at the beginning of the line. -/
def specWorkingColon (line : List Char) (j : Nat) : Bool :=
  decide (1 ≤ j) && decide (line.get? j = some ':') && specColonWorks (line.drop (j + 1))

/-- Modelled from the spec: capture groups of §4.2's pattern
`<label>:\s*<digits>` on one line, with the same greedy reading as
`memCaptures`. -/
def specMemCaptures (line : List Char) : Option (List Char × List Char) :=
  match (List.range line.length).foldl
      (fun acc j => if specWorkingColon line j then some j else acc) none with
  | none => none
  | some j =>
    let rest := line.drop (j + 1)
    some (line.take j, digRun (rest.drop (wsRunLen rest)))

/-! ### Concrete fixtures used by the claims -/

/-- A gateway whose every call captures an empty report (every tracked
key is then missing, so every field parses to zero with a warning). -/
def gwEmpty : Nat → Except ToolErr (List (List Char)) := fun _ => Except.ok []

/-- A gateway whose first call fails and whose later calls capture
empty reports: one failed probe in an otherwise healthy run. -/
def gwFailFirst : Nat → Except ToolErr (List (List Char)) :=
  fun k => if k = 0 then Except.error ToolErr.gateway else Except.ok []

/-- A report whose `TOTAL PSS:` line carries a 23-digit value, beyond
`u64::MAX` (the label needs a second colon for the greedy `(.+)` group
to trim to the key `monitor_memory` passes, which includes a colon). -/
def overflowReport : List (List Char) := ["TOTAL PSS:: 99999999999999999999999".toList]

/-- A gateway whose every capture returns `overflowReport`. -/
def gwOverflow : Nat → Except ToolErr (List (List Char)) := fun _ => Except.ok overflowReport

/-- The all-zero sample a capture of an empty report produces at tick `t`. -/
def zeroSample (t : Nat) : MemorySample :=
  { timestamp := t, total_pss := 0, native_heap := 0, dalvik_heap := 0, code := 0,
    stack := 0, graphics := 0, private_dirty := 0, shared_dirty := 0 }

/-- The §8 example report: the two table rows inside the section markers. -/
def soExampleLines : List (List Char) :=
  ["Native Heap".toList, "12 34 56 libfoo.so".toList, "78 9 10 libbar.so".toList]

/-- The row `12 34 56 libfoo.so` as a record. -/
def fooRec : SoMemoryInfo :=
  { name := "libfoo.so".toList, pss := 12, private_dirty := 34, shared_dirty := 56 }

/-- The row `78 9 10 libbar.so` as a record. -/
def barRec : SoMemoryInfo :=
  { name := "libbar.so".toList, pss := 78, private_dirty := 9, shared_dirty := 10 }

/-- A report with two rows of equal `pss` inside the section. -/
def soTieLines : List (List Char) :=
  ["Native Heap".toList, "5 1 1 liba.so".toList, "5 2 2 libb.so".toList]

/-- The first tied row, `5 1 1 liba.so`. -/
def tieRecA : SoMemoryInfo :=
  { name := "liba.so".toList, pss := 5, private_dirty := 1, shared_dirty := 1 }

/-- The second tied row, `5 2 2 libb.so`. -/
def tieRecB : SoMemoryInfo :=
  { name := "libb.so".toList, pss := 5, private_dirty := 2, shared_dirty := 2 }

/-- A well-formed table row used to build a long section. -/
def soRowLine : List Char := "1 2 3 a.so".toList

/-- A report whose table section opens at line 0 and then runs for 1999
rows with no terminator — well past the scan bound. -/
def soBigLines : List (List Char) := "Native Heap".toList :: List.replicate 1999 soRowLine

/-- A 1002-line report that never mentions the section header. -/
def longHeaderlessLines : List (List Char) := List.replicate 1002 "x".toList

/-- A `ps -T` listing: a header row and two data rows of at least nine
whitespace-separated fields, the first with an embedded-space name. -/
def psListing : List (List Char) :=
  ["USER PID TID PPID S PRI UTIME STIME NAME".toList,
   "u0_a1 1234 5 6 S 10 0:01 0:02 Binder thread 1".toList,
   "u0_a1 5678 5 6 R 12 0:03 0:04 main".toList]

/-- The record of the first data row of `psListing`. -/
def threadRec1 : ThreadInfo :=
  { tid := "1234".toList, name := "Binder thread 1".toList, state := "S".toList,
    priority := "10".toList, user_time := "0:01".toList, system_time := "0:02".toList }

/-- The record of the second data row of `psListing`. -/
def threadRec2 : ThreadInfo :=
  { tid := "5678".toList, name := "main".toList, state := "R".toList,
    priority := "12".toList, user_time := "0:03".toList, system_time := "0:04".toList }

/-! ### Helper lemmas -/

/-- A keep-the-last fold that ends on `some j` either found `j` during
the walk (so `j` passes the test) or started from `some j`. -/
theorem foldl_keep_last {p : Nat → Bool} :
    ∀ (l : List Nat) (acc : Option Nat) (j : Nat),
      l.foldl (fun a q => if p q then some q else a) acc = some j →
      p j = true ∨ acc = some j := by
  intro l
  induction l with
  | nil => intro acc j h; exact Or.inr h
  | cons q rest ih =>
    intro acc j h
    rw [List.foldl_cons] at h
    rcases ih _ j h with hp | hacc
    · exact Or.inl hp
    · by_cases hq : p q = true
      · rw [if_pos hq] at hacc
        obtain rfl : q = j := Option.some.inj hacc
        exact Or.inl hq
      · rw [if_neg hq] at hacc
        exact Or.inr hacc

/-- The index `lastWorkingColon` returns is a working colon. -/
theorem lastWorkingColon_works (line : List Char) (j : Nat)
    (h : lastWorkingColon line = some j) : workingColon line j = true := by
  unfold lastWorkingColon at h
  rcases foldl_keep_last _ _ _ h with hp | hacc
  · exact hp
  · cases hacc

/-- Every character `digRun` keeps is a digit. -/
theorem digRun_all_digits : ∀ cs : List Char, (digRun cs).all Char.isDigit = true := by
  intro cs
  induction cs with
  | nil => rfl
  | cons c rest ih =>
    unfold digRun
    by_cases hc : c.isDigit = true
    · rw [if_pos hc]
      simpa [List.all_cons, hc] using ih
    · rw [if_neg hc]
      rfl

/-- A true `colonWorks` exposes a digit right after the whitespace run. -/
theorem colonWorks_head (cs : List Char) (h : colonWorks cs = true) :
    ∃ c t, cs.drop (wsRunLen cs) = c :: t ∧ c.isDigit = true := by
  unfold colonWorks at h
  cases hd : cs.drop (wsRunLen cs) with
  | nil => rw [hd] at h; cases h
  | cons c t =>
    rw [hd] at h
    simp only [Bool.and_eq_true] at h
    exact ⟨c, t, rfl, h.2⟩

/-- The digit group of a `MEM_REGEX` match is a nonempty digit string. -/
theorem memCaptures_digits (line g1 g2 : List Char)
    (hcap : memCaptures line = some (g1, g2)) :
    g2 ≠ [] ∧ g2.all Char.isDigit = true := by
  unfold memCaptures at hcap
  cases hlwc : lastWorkingColon line with
  | none => rw [hlwc] at hcap; cases hcap
  | some j =>
    rw [hlwc] at hcap
    simp only [Option.some.injEq, Prod.mk.injEq] at hcap
    have hwork := lastWorkingColon_works line j hlwc
    unfold workingColon at hwork
    simp only [Bool.and_eq_true] at hwork
    have hcw : colonWorks (line.drop (j + 1)) = true := hwork.2
    obtain ⟨c, t, hdrop, hdig⟩ := colonWorks_head _ hcw
    have hg2 : g2 = digRun (c :: t) := by rw [← hcap.2, hdrop]
    constructor
    · rw [hg2]
      unfold digRun
      rw [if_pos hdig]
      exact List.cons_ne_nil c (digRun t)
    · rw [hg2]
      exact digRun_all_digits (c :: t)

/-- On a nonempty digit string within the 64-bit range, the embedded
`parse::<u64>` succeeds with the numeric value. -/
theorem parseU64_ok (ds : List Char) (hne : ds ≠ [])
    (hdig : ds.all Char.isDigit = true) (hfit : digitsVal ds < u64Bound) :
    parseU64 ds = some (digitsVal ds) := by
  unfold parseU64
  rw [if_pos]
  simp [List.isEmpty_iff, hne, hdig, hfit]

/-- `parse::<u64>` fails on a value beyond the 64-bit range. -/
theorem parseU64_overflow (ds : List Char) (hbig : u64Bound ≤ digitsVal ds) :
    parseU64 ds = none := by
  unfold parseU64
  rw [if_neg]
  simp [Nat.not_lt.mpr hbig]

/-- `parse::<u64>` only fails on an overflow when its input is a
nonempty digit string (as every captured group is). -/
theorem overflow_of_parseU64_none (ds : List Char) (hne : ds ≠ [])
    (hdig : ds.all Char.isDigit = true) (h : parseU64 ds = none) :
    u64Bound ≤ digitsVal ds := by
  by_cases hlt : digitsVal ds < u64Bound
  · rw [parseU64_ok ds hne hdig hlt] at h
    cases h
  · exact Nat.le_of_not_lt hlt

/-- A permutation of a two-element list is one of its two arrangements. -/
theorem perm_pair {α : Type} {l : List α} {x y : α}
    (h : l.Perm [x, y]) : l = [x, y] ∨ l = [y, x] := by
  have hlen := h.length_eq
  rcases l with _ | ⟨a, _ | ⟨b, _ | ⟨c, t⟩⟩⟩
  · simp at hlen
  · simp at hlen
  · have ha : a ∈ [x, y] := h.mem_iff.mp (List.mem_cons_self a [b])
    rcases List.mem_cons.mp ha with rfl | ha'
    · have hb : b = y := by simpa using h.cons_inv
      exact Or.inl (by rw [hb])
    · have ha2 : a = y := by simpa using ha'
      have h2 : [b].Perm [x] := by
        rw [ha2] at h
        exact (h.trans (List.Perm.swap y x [])).cons_inv
      have hb : b = x := by simpa using h2
      exact Or.inr (by rw [ha2, hb])
  · simp at hlen

/-- Past the scan bound the collection phase gathers no rows: for
`i ≥ 1001` every remaining line either re-triggers the header check and
continues, terminates the section, or trips the safety bound. -/
theorem collectSo_records_past_bound (lines : List (List Char)) :
    ∀ (i : Nat) (inSec : Bool), 1001 ≤ i → (collectSoAux lines i inSec).1 = [] := by
  induction lines with
  | nil => intro i s _; rfl
  | cons line rest ih =>
    intro i s hi
    unfold collectSoAux
    by_cases h1 : containsSub line nativeHeapMarker = true
    · rw [if_pos h1]
      exact ih (i + 1) true (by omega)
    · rw [if_neg h1]
      by_cases h2 : (s && (containsSub line dalvikHeapMarker || (trimChars line).isEmpty)) = true
      · rw [if_pos h2]
      · rw [if_neg h2, if_pos (by omega : 1000 < i)]

/-- The collected rows of a report are the collected rows of the lines
up to the scan bound: from index `i` only the next `1001 - i` lines can
contribute a row. -/
theorem collectSo_records_take (lines : List (List Char)) :
    ∀ (i : Nat) (inSec : Bool), i ≤ 1001 →
      (collectSoAux lines i inSec).1 = (collectSoAux (lines.take (1001 - i)) i inSec).1 := by
  induction lines with
  | nil => intro i s _; rw [List.take_nil]
  | cons line rest ih =>
    intro i s hi
    by_cases htop : i = 1001
    · subst htop
      rw [collectSo_records_past_bound (line :: rest) 1001 s (by omega)]
      norm_num [collectSoAux]
    · have hle : i ≤ 1000 := by omega
      have htake : (line :: rest).take (1001 - i) = line :: rest.take (1001 - (i + 1)) := by
        have : 1001 - i = (1001 - (i + 1)) + 1 := by omega
        rw [this, List.take_succ_cons]
      rw [htake]
      unfold collectSoAux
      by_cases h1 : containsSub line nativeHeapMarker = true
      · rw [if_pos h1, if_pos h1]
        exact ih (i + 1) true (by omega)
      · rw [if_neg h1, if_neg h1]
        by_cases h2 : (s && (containsSub line dalvikHeapMarker || (trimChars line).isEmpty)) = true
        · rw [if_pos h2, if_pos h2]
        · rw [if_neg h2, if_neg h2, if_neg (by omega : ¬ 1000 < i), if_neg (by omega : ¬ 1000 < i)]
          by_cases h4 : (s && !(trimChars line).isEmpty) = true
          · rw [if_pos h4, if_pos h4]
            cases hcap : soCaptures line with
            | none => simpa using ih (i + 1) s (by omega)
            | some g =>
              obtain ⟨d1, d2, d3, nm⟩ := g
              simpa using ih (i + 1) s (by omega)
          · rw [if_neg h4, if_neg h4]
            exact ih (i + 1) s (by omega)

/-- On a report that never mentions the section header, the scan
collects nothing and warns exactly when it runs past the bound. -/
theorem collectSo_headerless (lines : List (List Char)) :
    ∀ i : Nat, i ≤ 1001 → (∀ l ∈ lines, containsSub l nativeHeapMarker = false) →
      collectSoAux lines i false =
        ([], if lines.length + i ≤ 1001 then [] else [SoWarn.lineLimit]) := by
  induction lines with
  | nil =>
    intro i hi _
    have hc : ([] : List (List Char)).length + i ≤ 1001 := by simpa using hi
    rw [if_pos hc]
    rfl
  | cons line rest ih =>
    intro i hi h
    have h1 : containsSub line nativeHeapMarker = false :=
      h line (List.mem_cons_self line rest)
    have hrest : ∀ l ∈ rest, containsSub l nativeHeapMarker = false :=
      fun l hl => h l (List.mem_cons_of_mem line hl)
    unfold collectSoAux
    rw [if_neg (by simp [h1]), if_neg (by simp)]
    by_cases hbound : 1000 < i
    · rw [if_pos hbound]
      have : ¬ (line :: rest).length + i ≤ 1001 := by
        simp only [List.length_cons]
        omega
      rw [if_neg this]
    · rw [if_neg hbound, if_neg (by simp)]
      rw [ih (i + 1) (by omega) hrest]
      by_cases hlen : rest.length + (i + 1) ≤ 1001
      · rw [if_pos hlen, if_pos (by simp only [List.length_cons]; omega)]
      · rw [if_neg hlen, if_neg (by simp only [List.length_cons]; omega)]

/-- A run of the loop that ends in `Ok` returns at least the samples
already accumulated. -/
theorem monitorGo_ok_length (gw : Nat → Except ToolErr (List (List Char)))
    (duration interval : Nat) :
    ∀ (fuel elapsed k : Nat) (acc samples : List MemorySample),
      monitorGo gw duration interval fuel elapsed k acc = Except.ok samples →
      acc.length ≤ samples.length := by
  intro fuel
  induction fuel with
  | zero =>
    intro elapsed k acc samples h
    obtain rfl : acc.reverse = samples := by
      simpa [monitorGo] using h
    simp
  | succ fuel ih =>
    intro elapsed k acc samples h
    unfold monitorGo at h
    split at h
    · split at h
      · cases h
      · split at h
        · cases h
        · have := ih _ _ _ _ h
          simp only [List.length_cons] at this
          omega
    · obtain rfl : acc.reverse = samples := Except.ok.inj h
      simp

/-! ### The claims -/

/-- C2 (confirmed): for every report and every key such that no line of
the report matches the label-colon-digits pattern with trimmed label
equal to that key, `parse_memory_value` returns 0 — an `Ok`, never an
error (the source warns and returns `Ok(0)` after the scan). -/
theorem parse_memory_value_missing_key_ok_zero
    (memInfo : List (List Char)) (key : List Char)
    (h : ∀ l ∈ memInfo, lineMatchesKey l key = false) :
    parseMemoryValue memInfo key = Except.ok 0 := by
  induction memInfo with
  | nil => rfl
  | cons line rest ih =>
    have hline := h line (List.mem_cons_self line rest)
    have hrest : ∀ l ∈ rest, lineMatchesKey l key = false :=
      fun l hl => h l (List.mem_cons_of_mem line hl)
    unfold parseMemoryValue
    cases hcap : memCaptures line with
    | none => exact ih hrest
    | some g =>
      obtain ⟨g1, g2⟩ := g
      unfold lineMatchesKey at hline
      rw [hcap] at hline
      have hne : trimChars g1 ≠ key := of_decide_eq_false hline
      simp only []
      rw [if_neg hne]
      exact ih hrest

/-- C2 witness: a concrete two-line report in which no line matches the
key `TOTAL` (the only colon is followed by whitespace and a letter). -/
theorem parse_memory_value_missing_key_ok_zero_witness :
    parseMemoryValue ["hello".toList, "TOTAL: abc".toList] "TOTAL".toList = Except.ok 0 :=
  parse_memory_value_missing_key_ok_zero _ _ (by decide)

/-- C7 counterexample: the line `Key:123` matches the spec's §4.2
pattern `<label>:\s*<digits>` (zero whitespace characters after the
colon) with label `Key` and value 123, but the code's `MEM_REGEX`
demands at least one whitespace character, so the extractor does not
match the line and returns `Ok(0)` instead of `Ok(123)`. -/
theorem mem_extractor_no_space_counterexample :
    (∃ g1 g2, specMemCaptures "Key:123".toList = some (g1, g2) ∧
        trimChars g1 = "Key".toList ∧ digitsVal g2 = 123) ∧
    memCaptures "Key:123".toList = none ∧
    parseMemoryValue ["Key:123".toList] "Key".toList = Except.ok 0 :=
  ⟨⟨"Key".toList, "123".toList, by decide, by decide, by decide⟩, by decide, rfl⟩

/-- C7 (amended): for every report containing at least one line that
matches `<label>:\s+<digits>` — at least one whitespace character after
the colon, as `MEM_REGEX` requires — with trimmed label exactly equal
to the key, and whose first such line carries a value within the
unsigned 64-bit range, the extractor returns that first line's integer
value. -/
theorem parse_memory_value_first_match
    (memInfo : List (List Char)) (key ds : List Char)
    (hfind : firstMatchDigits memInfo key = some ds)
    (hfit : digitsVal ds < u64Bound) :
    parseMemoryValue memInfo key = Except.ok (digitsVal ds) := by
  induction memInfo with
  | nil => simp [firstMatchDigits] at hfind
  | cons line rest ih =>
    unfold firstMatchDigits at hfind
    unfold parseMemoryValue
    cases hcap : memCaptures line with
    | none =>
      rw [hcap] at hfind
      exact ih hfind
    | some g =>
      obtain ⟨g1, g2⟩ := g
      rw [hcap] at hfind
      simp only [] at hfind ⊢
      by_cases hk : trimChars g1 = key
      · rw [if_pos hk] at hfind ⊢
        obtain rfl : g2 = ds := Option.some.inj hfind
        rw [parseU64_ok g2 (memCaptures_digits line g1 g2 hcap).1
          (memCaptures_digits line g1 g2 hcap).2 hfit]
      · rw [if_neg hk] at hfind ⊢
        exact ih hfind

/-- C7 witness: two lines match the key `Graphics`; the first one's
value, 77, is the result. -/
theorem parse_memory_value_first_match_witness :
    parseMemoryValue ["Graphics:  77".toList, "Graphics:  88".toList] "Graphics".toList =
      Except.ok 77 :=
  parse_memory_value_first_match _ _ "77".toList (by decide) (by decide)

/-- C9 (confirmed): `parse_memory_value` returns an error exactly when
the first line whose trimmed label equals the key carries a digit
string whose value exceeds the unsigned 64-bit range; on every other
report shape it returns an `Ok` (the first match's value, or 0). -/
theorem parse_memory_value_error_iff_overflow
    (memInfo : List (List Char)) (key : List Char) :
    (∃ e, parseMemoryValue memInfo key = Except.error e) ↔
      (∃ ds, firstMatchDigits memInfo key = some ds ∧ u64Bound ≤ digitsVal ds) := by
  induction memInfo with
  | nil => simp [parseMemoryValue, firstMatchDigits]
  | cons line rest ih =>
    unfold parseMemoryValue firstMatchDigits
    cases hcap : memCaptures line with
    | none => exact ih
    | some g =>
      obtain ⟨g1, g2⟩ := g
      simp only []
      by_cases hk : trimChars g1 = key
      · rw [if_pos hk, if_pos hk]
        obtain ⟨hne, hdig⟩ := memCaptures_digits line g1 g2 hcap
        cases hp : parseU64 g2 with
        | some v =>
          constructor
          · rintro ⟨e, he⟩
            cases he
          · rintro ⟨ds, hds, hbig⟩
            obtain rfl : g2 = ds := Option.some.inj hds
            rw [parseU64_overflow g2 hbig] at hp
            cases hp
        | none =>
          have hbig := overflow_of_parseU64_none g2 hne hdig hp
          constructor
          · intro _
            exact ⟨g2, rfl, hbig⟩
          · intro _
            exact ⟨ToolErr.parseValue key, rfl⟩
      · rw [if_neg hk, if_neg hk]
        exact ih

/-- C1 counterexample: a run of the sampling loop (duration 5s,
interval 2s) in which exactly one capture step fails is aborted with
that error — for a failing gateway call as well as for a report field
that fails to parse — instead of substituting zeros and sampling on. -/
theorem monitor_memory_single_failure_aborts :
    monitorMemory gwFailFirst 5 2 = Except.error ToolErr.gateway ∧
    monitorMemory gwOverflow 5 2 = Except.error (ToolErr.parseValue keyTotalPss) :=
  ⟨rfl, rfl⟩

/-- C1 (amended): a *missing* field in a captured report is non-fatal —
the extractor substitutes zero and the loop continues to the end of the
duration without retrying — but a failing gateway call or a field whose
digits fail to parse aborts the whole run with an error, propagated by
the `?` operators in `monitor_memory`. -/
theorem monitor_memory_partial_failure_policy :
    monitorMemory gwEmpty 5 2 = Except.ok [zeroSample 0, zeroSample 2, zeroSample 4] ∧
    monitorMemory gwFailFirst 5 2 = Except.error ToolErr.gateway ∧
    monitorMemory gwOverflow 5 2 = Except.error (ToolErr.parseValue keyTotalPss) :=
  ⟨rfl, rfl, rfl⟩

/-- C6 (confirmed): with duration 5 and interval 2 the loop produces
exactly the three samples ticked at 0, 2 and 4 seconds (the guard is
checked before each tick); and for every positive duration and interval
— in particular an interval exceeding the remaining budget — a run that
returns `Ok` holds at least one sample. -/
theorem monitor_memory_tick_schedule :
    monitorMemory gwEmpty 5 2 = Except.ok [zeroSample 0, zeroSample 2, zeroSample 4] ∧
    (∀ (duration interval : Nat) (gw : Nat → Except ToolErr (List (List Char)))
        (samples : List MemorySample),
        1 ≤ duration → 1 ≤ interval →
        monitorMemory gw duration interval = Except.ok samples →
        1 ≤ samples.length) := by
  constructor
  · rfl
  · intro d i gw samples hd hi hrun
    unfold monitorMemory at hrun
    obtain ⟨d', rfl⟩ : ∃ d', d = d' + 1 := ⟨d - 1, by omega⟩
    unfold monitorGo at hrun
    rw [if_pos (by omega : (0 : Nat) < d' + 1)] at hrun
    split at hrun
    · cases hrun
    · split at hrun
      · cases hrun
      · have := monitorGo_ok_length gw (d' + 1) i _ _ _ _ _ hrun
        simpa using this

/-- C6 witness: the general lower bound applied to a concrete one-tick
run whose interval (5) exceeds the duration (1). -/
theorem monitor_memory_tick_schedule_witness :
    (1 : Nat) ≤ [zeroSample 0].length :=
  monitor_memory_tick_schedule.2 1 5 gwEmpty [zeroSample 0]
    (by omega) (by omega) rfl

/-- C10 (confirmed): a run with duration 0 returns the empty sample
list for *every* gateway whatsoever — the elapsed-time guard is checked
before the first capture, so no gateway call is consulted and no sample
is recorded. -/
theorem monitor_memory_zero_duration
    (gw : Nat → Except ToolErr (List (List Char))) (interval : Nat) :
    monitorMemory gw 0 interval = Except.ok [] := rfl

/-- C3 counterexample: for a report with two tied rows (`5 1 1 liba.so`
then `5 2 2 libb.so`), the contract of `sort_unstable_by` admits the
output that lists libb.so before liba.so — a sorted permutation of the
collection that does *not* keep the tied rows' order of appearance, so
stability for ties is not a property of the parser. -/
theorem so_sort_unstable_tie_counterexample :
    ∃ out, analyzeSoMemorySpec soTieLines out ∧
      ¬ stableForTies (analyzeSoParse soTieLines).1 out := by
  refine ⟨[tieRecB, tieRecA], ⟨?_, by decide⟩, ?_⟩
  · show List.Perm [tieRecB, tieRecA] [tieRecA, tieRecB]
    exact List.Perm.swap tieRecA tieRecB []
  · intro hst
    exact absurd (hst 5) (by decide)

/-- C3 (amended): every row list the table parser can return is sorted
in descending order of `pss`, but the order of rows with equal `pss` is
unspecified (`sort_unstable_by` guarantees none); for the claim's
example — rows `12 34 56 libfoo.so` then `78 9 10 libbar.so`, whose
`pss` values differ — the output is uniquely determined: libbar.so
(pss 78) before libfoo.so (pss 12). -/
theorem so_rows_sorted_desc_and_example :
    (∀ (lines : List (List Char)) (out : List SoMemoryInfo),
        analyzeSoMemorySpec lines out → soSorted out = true) ∧
    (∀ out : List SoMemoryInfo,
        analyzeSoMemorySpec soExampleLines out → out = [barRec, fooRec]) := by
  constructor
  · exact fun lines out h => h.2
  · intro out h
    obtain ⟨hperm, hsort⟩ := h
    have hcol : (analyzeSoParse soExampleLines).1 = [fooRec, barRec] := rfl
    rw [hcol] at hperm
    rcases perm_pair hperm with h1 | h2
    · rw [h1] at hsort
      exact absurd hsort (by decide)
    · exact h2

set_option maxRecDepth 40000 in
/-- C4 (confirmed): the table scan is bounded — for *every* report, the
collected rows equal the rows collected from its first 1001 lines alone
(the `i > 1000` safety check; the scan itself is a total structural
recursion); concretely, a header followed by 1999 unterminated rows
yields exactly the 1000 rows that precede the bound, plus the
line-limit warning. -/
theorem so_table_scan_bounded :
    (∀ lines : List (List Char),
        (collectSoAux lines 0 false).1 = (collectSoAux (lines.take 1001) 0 false).1) ∧
    (analyzeSoParse soBigLines).1.length = 1000 ∧
    (analyzeSoParse soBigLines).2 = [SoWarn.lineLimit] := by
  refine ⟨fun lines => ?_, ?_, ?_⟩
  · simpa using collectSo_records_take lines 0 false (by omega)
  · rfl
  · rfl

set_option maxRecDepth 40000 in
/-- C5 counterexample: a 1002-line report in which the section header
never occurs makes the parser return the empty list, but it emits the
line-limit warning *in addition to* the no-libraries warning — the
`i > 1000` safety check is not guarded by the in-section flag. -/
theorem so_no_header_long_report_counterexample :
    (∀ l ∈ longHeaderlessLines, containsSub l nativeHeapMarker = false) ∧
    analyzeSoParse longHeaderlessLines = ([], [SoWarn.lineLimit, SoWarn.noLibs]) ∧
    (analyzeSoParse longHeaderlessLines).2 ≠ [SoWarn.noLibs] := by
  refine ⟨?_, rfl, ?_⟩
  · intro l hl
    rw [List.eq_of_mem_replicate hl]
    rfl
  · show ([SoWarn.lineLimit, SoWarn.noLibs] : List SoWarn) ≠ [SoWarn.noLibs]
    decide

/-- C5 (amended): for every report in which the section header marker
never occurs, the table parser returns the empty list and emits the
no-libraries warning — preceded by the line-limit warning when the
report is longer than the scan bound — and never an error. -/
theorem so_no_header_empty_result (lines : List (List Char))
    (h : ∀ l ∈ lines, containsSub l nativeHeapMarker = false) :
    analyzeSoParse lines =
      ([], if lines.length ≤ 1001 then [SoWarn.noLibs]
           else [SoWarn.lineLimit, SoWarn.noLibs]) := by
  unfold analyzeSoParse
  rw [collectSo_headerless lines 0 (by omega) h]
  by_cases hlen : lines.length ≤ 1001
  · rw [if_pos (by omega : lines.length + 0 ≤ 1001), if_pos hlen]
    rfl
  · rw [if_neg (by omega : ¬ lines.length + 0 ≤ 1001), if_neg hlen]
    rfl

/-- C5 witness: a one-line headerless report yields the empty list and
only the no-libraries warning. -/
theorem so_no_header_empty_result_witness :
    analyzeSoParse ["hello".toList] = ([], [SoWarn.noLibs]) :=
  so_no_header_empty_result _ (by decide)

/-- A row yields a record exactly when it splits into at least nine
whitespace-separated fields. -/
theorem threadRow_isSome (line : List Char) :
    (threadRow line).isSome = decide (9 ≤ (splitWs line).length) := by
  unfold threadRow
  rcases hs : splitWs line with _ | ⟨f0, _ | ⟨f1, _ | ⟨f2, _ | ⟨f3, _ | ⟨f4, _ |
    ⟨f5, _ | ⟨f6, _ | ⟨f7, _ | ⟨f8, rest⟩⟩⟩⟩⟩⟩⟩⟩⟩ <;>
    simp [List.length_cons]

/-- C8 (confirmed): the thread analyzer skips the header row; each
remaining row contributes exactly one record when it has at least nine
whitespace-separated fields — with `tid` the row's second field and the
name the whitespace-join of the fields from index 8 onward — and is
silently skipped otherwise; a listing with a header row and two
sufficient data rows yields exactly those two records. -/
theorem analyze_threads_parsing :
    (∀ (hdr : List Char) (rows : List (List Char)),
        (parseThreads (hdr :: rows)).length =
          rows.countP (fun r => decide (9 ≤ (splitWs r).length))) ∧
    (∀ (hdr row : List Char) (rows : List (List Char))
        (f0 f1 f2 f3 f4 f5 f6 f7 f8 : List Char) (rest : List (List Char)),
        splitWs row = f0 :: f1 :: f2 :: f3 :: f4 :: f5 :: f6 :: f7 :: f8 :: rest →
        parseThreads (hdr :: row :: rows) =
          { tid := f1, name := joinSpace (f8 :: rest), state := f4, priority := f5,
            user_time := f6, system_time := f7 } :: parseThreads (hdr :: rows)) ∧
    parseThreads psListing = [threadRec1, threadRec2] := by
  refine ⟨?_, ?_, ?_⟩
  · intro hdr rows
    unfold parseThreads
    rw [List.drop_succ_cons, List.drop_zero]
    induction rows with
    | nil => rfl
    | cons r rest ih =>
      rw [List.filterMap_cons, List.countP_cons, ← ih]
      have hsome := threadRow_isSome r
      cases hr : threadRow r with
      | none =>
        rw [hr] at hsome
        simp [← hsome]
      | some rec =>
        rw [hr] at hsome
        simp [← hsome]
  · intro hdr row rows f0 f1 f2 f3 f4 f5 f6 f7 f8 rest hs
    unfold parseThreads
    rw [List.drop_succ_cons, List.drop_zero, List.drop_succ_cons, List.drop_zero,
      List.filterMap_cons]
    unfold threadRow
    rw [hs]
  · rfl

end LogTools
